import Mathlib

/-!
Verification of the MeshroomGCPMarkerAdditions nodes.

The development shallowly embeds the two Python source files
`ImportMarkerFeatures.py` and `SfMTransformFromMarker.py`.
Python floats are modelled as rationals, Python ints as `Int`,
Python byte values as `Nat`, and fallible operations (indexing
errors, KeyError, struct packing, subprocess failure checks)
return `Option`.
-/

namespace GCPMarker

/-- Python list indexing `l[i]`: a negative index wraps around from the
end of the list; an index out of the valid range raises (modelled `none`). -/
def pyGet {α : Type} (l : List α) (i : Int) : Option α :=
  if 0 ≤ i then l.get? i.toNat
  else if 0 ≤ (l.length : Int) + i then l.get? ((l.length : Int) + i).toNat
  else none

/-- Python list or bytearray item assignment `l[i] = v`: a negative index
wraps around from the end; an index out of range raises (modelled `none`). -/
def pySet {α : Type} (l : List α) (i : Int) (v : α) : Option (List α) :=
  if 0 ≤ i then
    if i.toNat < l.length then some (l.set i.toNat v) else none
  else if 0 ≤ (l.length : Int) + i then
    some (l.set ((l.length : Int) + i).toNat v)
  else none

/-- Little-endian base-256 byte list of `n`, exactly `k` bytes
(the low `k` bytes of `n`). -/
def bytesLE : Nat → Nat → List Nat
  | 0, _ => []
  | k + 1, n => n % 256 :: bytesLE k (n / 256)

/-- Decode a little-endian base-256 byte list back to a natural number. -/
def bytesLEValue (bs : List Nat) : Nat :=
  bs.foldr (fun b acc => b + 256 * acc) 0

/-- Model of `struct.pack` with format `<Q`: an 8-byte little-endian
unsigned encoding; raises (modelled `none`) when the value does not fit
in 64 bits. -/
def packQ (n : Nat) : Option (List Nat) :=
  if n < 2 ^ 64 then some (bytesLE 8 n) else none

/-- Decimal string of a natural number, computed with a fuel argument
(`n + 1` fuel always suffices); models the digit string produced by
Python for the `%d` conversion and the integer part of `%f`. -/
def natStrAux : Nat → Nat → String
  | 0, _ => ""
  | fuel + 1, n =>
    if n < 10 then String.singleton (Nat.digitChar n)
    else natStrAux fuel (n / 10) ++ String.singleton (Nat.digitChar (n % 10))

/-- Decimal string of a natural number. -/
def natStr (n : Nat) : String := natStrAux (n + 1) n

/-- Python `%d` formatting of an integer. -/
def intStr (i : Int) : String := (if i < 0 then "-" else "") ++ natStr i.natAbs

/-- Low `p` decimal digits of `n`, most significant first, always exactly
`p` characters; models the fractional digit block of Python `%f`. -/
def fracDigits : Nat → Nat → String
  | _, 0 => ""
  | n, p + 1 => fracDigits (n / 10) p ++ String.singleton (Nat.digitChar (n % 10))

/-- Rounding of the nonnegative fraction `n / d` to the nearest natural
number with ties going to even, as CPython float formatting does for
the `%f` conversion. -/
def roundHalfEvenFrac (n d : Nat) : Nat :=
  let f := n / d
  let r := n % d
  if 2 * r < d then f
  else if d < 2 * r then f + 1
  else if f % 2 = 0 then f else f + 1

/-- Scaled magnitude used by `%.pf` formatting of `q`: the numeric value
`|q| * 10 ^ p` rounded half-to-even to an integer, computed on the raw
numerator and denominator. -/
def scaledMagnitude (q : ℚ) (p : Nat) : Nat :=
  roundHalfEvenFrac (q.num.natAbs * 10 ^ p) q.den

/-- Sign and integer part of Python `%.pf` fixed-point formatting. -/
def intPartStr (q : ℚ) (p : Nat) : String :=
  (if q.num < 0 then "-" else "") ++ natStr (scaledMagnitude q p / 10 ^ p)

/-- Python `%.pf` fixed-point formatting of a numeric value: sign, integer
part, and, when `p > 0`, a decimal point followed by exactly `p`
fractional digits; rounds half to even. -/
def formatFixed (q : ℚ) (p : Nat) : String :=
  intPartStr q p ++
    (if p = 0 then "" else "." ++ fracDigits (scaledMagnitude q p) p)

/-- Insertion of an integer into an ascending list, keeping it ascending. -/
def insertSorted (x : Int) : List Int → List Int
  | [] => [x]
  | y :: ys => if x ≤ y then x :: y :: ys else y :: insertSorted x ys

/-- Model of Python `sorted` on a list of integers (ascending order). -/
def pySorted (l : List Int) : List Int := l.foldr insertSorted []

/-- Python `int()` applied to a number: truncation toward zero. -/
def pyTrunc (q : ℚ) : Int := q.num.tdiv (q.den : Int)

/-- Python numeric value as it occurs in subsystem B: an int (from
`int(...)` casts) or a float (from `csv.QUOTE_NONNUMERIC` parsing). -/
inductive PyNum where
  | int (i : Int)
  | float (q : ℚ)
deriving DecidableEq

/-- Numeric value carried by a Python number. -/
def PyNum.val : PyNum → ℚ
  | .int i => (i : ℚ)
  | .float q => q

/-- Python `==` on numbers: ints and floats compare by numeric value. -/
def pyNumEq (a b : PyNum) : Bool := decide (a.val = b.val)

/-- Python dict assignment `d[k] = v` for numeric keys, modelled as an
association list in insertion order: an existing key (by numeric
equality) keeps its position and original key object and receives the
new value; a fresh key is appended at the end. -/
def numDictSet {V : Type} (d : List (PyNum × V)) (k : PyNum) (v : V) :
    List (PyNum × V) :=
  if d.any (fun kv => pyNumEq kv.1 k) then
    d.map (fun kv => if pyNumEq kv.1 k then (kv.1, v) else kv)
  else d ++ [(k, v)]

/-- Python dict lookup for numeric keys; `none` models `KeyError` for the
`d[k]` form and the `None` result for the `d.get(k)` form. -/
def numDictGet {V : Type} (d : List (PyNum × V)) (k : PyNum) : Option V :=
  (d.find? (fun kv => pyNumEq kv.1 k)).map (fun kv => kv.2)

/-- Python dict assignment for string keys (view manifest lookup table). -/
def strDictSet (d : List (String × String)) (k v : String) :
    List (String × String) :=
  if d.any (fun kv => kv.1 == k) then
    d.map (fun kv => if kv.1 == k then (kv.1, v) else kv)
  else d ++ [(k, v)]

/-- Python `d.get(k)` for string keys: `none` when the key is absent. -/
def strDictGet (d : List (String × String)) (k : String) : Option String :=
  (d.find? (fun kv => kv.1 == k)).map (fun kv => kv.2)

/-- Decimal digit value of a character, when it is a digit. -/
def digitVal (c : Char) : Option Nat :=
  if c.isDigit then some (c.toNat - 48) else none

/-- Parse a nonempty all-digit character list as a natural number. -/
def parseNatChars (l : List Char) : Option Nat :=
  if l.isEmpty then none
  else l.foldl (fun acc c => do
    let a ← acc
    let d ← digitVal c
    pure (10 * a + d)) (some 0)

/-- Model of Python `int(s)` on plain decimal integer literals (an
optional minus sign followed by digits); other strings raise (`none`). -/
def pyIntOfString (s : String) : Option Int :=
  match s.data with
  | '-' :: rest => (parseNatChars rest).map (fun n => -(n : Int))
  | l => (parseNatChars l).map (fun n => (n : Int))

/-- Parse an unsigned decimal literal with an optional fractional part. -/
def pyFloatOfChars (l : List Char) : Option ℚ :=
  let ip := l.takeWhile (fun c => c != '.')
  match l.dropWhile (fun c => c != '.') with
  | [] => (parseNatChars ip).map (fun n => (n : ℚ))
  | _ :: fp => do
    let i ← parseNatChars ip
    let f ← parseNatChars fp
    pure (mkRat (i * 10 ^ fp.length + f) (10 ^ fp.length))

/-- Model of Python `float(s)` on plain decimal literals with an optional
minus sign and an optional fractional part; other strings raise. -/
def pyFloatOfString (s : String) : Option ℚ :=
  match s.data with
  | '-' :: rest => (pyFloatOfChars rest).map (fun q => -q)
  | l => pyFloatOfChars l

/-!
Embedding of `ImportMarkerFeatures.py`.
-/

/-- MarkerDetection as held in the per-image lists built by
`load_images`: the slice `item[1:]` of a parsed row, in order
`[markerX, markerY, markerSize, markerID]`. -/
structure Marker where
  x : ℚ
  y : ℚ
  size : ℚ
  id : Int
deriving DecidableEq

/-- One row of the marker CSV as parsed inside the comprehension of
`load_images` (`ImportMarkerFeatures.py` line 98): the tuple
`(row[2], float(row[0]), float(row[1]), float(row[4]), int(row[3]))`.
A missing column or a failed conversion raises, modelled as `none`; the
`float` and `int` builtins are passed in as parameters. -/
def load_images_row (pf : String → Option ℚ) (pint : String → Option Int)
    (row : List String) : Option (String × ℚ × ℚ × ℚ × Int) := do
  let img ← row.get? 2
  let x ← row.get? 0 >>= pf
  let y ← row.get? 1 >>= pf
  let size ← row.get? 4 >>= pf
  let i ← row.get? 3 >>= pint
  pure (img, x, y, size, i)

/-- Model of `load_images` (lines 96-98): the list comprehension over all
CSV rows; an exception on any single row aborts the whole load. -/
def load_images (pf : String → Option ℚ) (pint : String → Option Int)
    (rows : List (List String)) : Option (List (String × ℚ × ℚ × ℚ × Int)) :=
  rows.mapM (load_images_row pf pint)

/-- Image names in first occurrence order, as produced by the dict
comprehension of line 100. -/
def imageNames (csv_data : List (String × ℚ × ℚ × ℚ × Int)) : List String :=
  csv_data.foldl (fun acc it => if acc.contains it.1 then acc else acc ++ [it.1]) []

/-- Grouping of parsed rows by image name (lines 100-103): keys in first
occurrence order, each image keeping its markers in CSV row order. -/
def group_images (csv_data : List (String × ℚ × ℚ × ℚ × Int)) :
    List (String × List Marker) :=
  (imageNames csv_data).map (fun img =>
    (img, (csv_data.filter (fun it => it.1 == img)).map
      (fun it => ⟨it.2.1, it.2.2.1, it.2.2.2.1, it.2.2.2.2⟩)))

/-- Base file name of a path (`os.path.basename` for posix paths). -/
def basename (s : String) : String := (s.splitOn "/").getLastD s

/-- Model of the lookup construction in `load_viewids` (lines 118-119):
base file name of each view path mapped to its view id; a later view
with the same base name overwrites an earlier one. -/
def load_viewids (views : List (String × String)) : List (String × String) :=
  views.foldl (fun lk v => strDictSet lk (basename v.1) v.2) []

/-- Handle events of the per-view write in `write_describers`
(lines 138-151): acquisitions and releases of the feature and
descriptor file handles. -/
inductive FileEvent where
  | openFeat
  | openDesc
  | closeDesc
  | closeFeat
deriving DecidableEq

/-- One marker descriptor record (lines 146-147):
`data = bytearray(128); data[marker[3]] = 255` with Python index
semantics; `none` models the IndexError raised when the id is outside
the valid index range of the 128-byte array. -/
def encodeDescRecord (i : Int) : Option (List Nat) :=
  pySet (List.replicate 128 0) i 255

/-- Feature file line written for one marker (line 144):
`"%.2f %.2f %.4f 0\n" % (x, y, size)`. -/
def featLine (m : Marker) : String :=
  formatFixed m.x 2 ++ " " ++ formatFixed m.y 2 ++ " "
    ++ formatFixed m.size 4 ++ " 0\n"

/-- Per-marker loop of `write_describers` (lines 142-149): returns the
feature lines and descriptor bytes written so far and whether the loop
completed. On the marker whose descriptor indexing raises, its feature
line has already been written but none of its descriptor bytes are. -/
def writeMarkersLoop : List Marker → List String × List Nat × Bool
  | [] => ([], [], true)
  | m :: rest =>
    match encodeDescRecord m.id with
    | none => ([featLine m], [], false)
    | some recd =>
      let t := writeMarkersLoop rest
      (featLine m :: t.1, recd ++ t.2.1, t.2.2)

/-- Write of a single view (lines 138-151): open the feature and the
descriptor file, write the 8-byte little-endian marker count, run the
marker loop, and execute the two `close()` calls only when no exception
was raised before them. Returns the handle event trace, the feature
lines, the descriptor file bytes, and whether the write completed. -/
def writeView (markers : List Marker) :
    List FileEvent × List String × List Nat × Bool :=
  match packQ markers.length with
  | none => ([.openFeat, .openDesc], [], [], false)
  | some header =>
    let t := writeMarkersLoop markers
    ([.openFeat, .openDesc] ++ (if t.2.2 then [.closeDesc, .closeFeat] else []),
      t.1, header ++ t.2.1, t.2.2)

/-- Python falsiness of `lookup.get(img)` (line 133): a missing key and
an empty view id string are both falsy. -/
def pyFalsy : Option String → Bool
  | none => true
  | some s => s == ""

/-- Views actually encoded by `write_describers` (lines 131-136): each
image is looked up in the manifest and skipped when the result is falsy;
otherwise its markers are written under the resolved view id. -/
def write_describers_views (images : List (String × List Marker))
    (lookup : List (String × String)) : List (String × List Marker) :=
  images.filterMap (fun im =>
    let viewid := strDictGet lookup im.1
    if pyFalsy viewid then none
    else viewid.map (fun v => (v, im.2)))

/-- Files produced by `write_describers`: per processed view, in image
iteration order, the view id with the outcome of its write. -/
def write_describers_outputs (images : List (String × List Marker))
    (lookup : List (String × String)) :
    List (String × (List FileEvent × List String × List Nat × Bool)) :=
  (write_describers_views images lookup).map (fun v => (v.1, writeView v.2))

/-!
Embedding of `SfMTransformFromMarker.py`.
-/

/-- Guard of the auto branch of `get_markerids`
(`SfMTransformFromMarker.py` lines 208-210): the subprocess return code
is copied into `return_code` and then compared against that same copy. -/
def get_markerids_guard (returncode : Int) : Bool :=
  let return_code := returncode
  returncode != return_code

/-- Auto branch of `get_markerids` (lines 201-218): after the guard, the
structure array is read back (`none` when the JSON lacks the key) and
the integer casts of the first color channel of each point are sorted;
a `none` result models the raised error. -/
def get_markerids_auto (returncode : Int) (sfm : Option (List ℚ)) :
    Option (List Int) :=
  if get_markerids_guard returncode then none
  else some (match sfm with
    | none => []
    | some points =>
      if points.isEmpty then [] else pySorted (points.map pyTrunc))

/-- Row loop of `load_coords` (lines 241-246), carrying the dictionary
built so far: a row with fewer than 4 fields is skipped with a warning;
otherwise its first field keys the offset-adjusted coordinate triple. -/
def load_coords_go (ox oy oz : ℚ) :
    List (List ℚ) → List (PyNum × (ℚ × ℚ × ℚ)) → List (PyNum × (ℚ × ℚ × ℚ))
  | [], coordinates => coordinates
  | item :: rest, coordinates =>
    match item with
    | i0 :: i1 :: i2 :: i3 :: _ =>
      load_coords_go ox oy oz rest
        (numDictSet coordinates (.float i0) (i1 + ox, i2 + oy, i3 + oz))
    | _ => load_coords_go ox oy oz rest coordinates

/-- Model of `load_coords` (lines 233-248) applied to rows the csv module
has already split and, under QUOTE_NONNUMERIC, converted to floats. -/
def load_coords (rows : List (List ℚ)) (ox oy oz : ℚ) :
    List (PyNum × (ℚ × ℚ × ℚ)) :=
  load_coords_go ox oy oz rows []

/-- Recursion underlying the dict comprehension
`markers = (id: coords[id] for id in marker_ids)` of `processChunk`
(line 282), carrying the dict built so far. -/
def build_markers_go (coords : List (PyNum × (ℚ × ℚ × ℚ))) :
    List Int → List (PyNum × (ℚ × ℚ × ℚ)) → Option (List (PyNum × (ℚ × ℚ × ℚ)))
  | [], acc => some acc
  | i :: rest, acc =>
    match numDictGet coords (.int i) with
    | none => none
    | some v => build_markers_go coords rest (numDictSet acc (.int i) v)

/-- Join of the resolved marker ids against the coordinate table
(`processChunk` line 282): a KeyError on any id is modelled by `none`. -/
def build_markers (ids : List Int) (coords : List (PyNum × (ℚ × ℚ × ℚ))) :
    Option (List (PyNum × (ℚ × ℚ × ℚ))) :=
  build_markers_go coords ids []

/-- Model of `build_markers_param` (lines 252-259): starting from
`" --markers"`, append one formatted entry per marker in mapping
order. -/
def build_markers_param (markers : List (Int × ℚ × ℚ × ℚ))
    (precision : Nat) : String :=
  markers.foldl (fun cmd item =>
    cmd ++ " " ++ intStr item.1 ++ ":" ++ formatFixed item.2.1 precision
      ++ "," ++ formatFixed item.2.2.1 precision
      ++ "," ++ formatFixed item.2.2.2 precision)
    " --markers"

/-- Entry format of the markers parameter as the specification words it:
a leading space, the id, a colon, and the three coordinates with `p`
decimal places joined by commas without spaces. -/
def markersParamEntry (p : Nat) (item : Int × ℚ × ℚ × ℚ) : String :=
  " " ++ intStr item.1 ++ ":" ++ formatFixed item.2.1 p
    ++ "," ++ formatFixed item.2.2.1 p
    ++ "," ++ formatFixed item.2.2.2 p

/-- Concatenation of a list of strings in order. -/
def strConcat (l : List String) : String := l.foldr (fun a b => a ++ b) ""

/-- First occurrence deduplication relative to a list of already seen
values. -/
def dedupFirstFrom (seen : List Int) : List Int → List Int
  | [] => []
  | x :: xs =>
    if x ∈ seen then dedupFirstFrom seen xs
    else x :: dedupFirstFrom (seen ++ [x]) xs

/-- First occurrence deduplication of a list of integers, matching the
key order of a Python dict filled in iteration order. -/
def dedupFirst (l : List Int) : List Int := dedupFirstFrom [] l

end GCPMarker

namespace GCPMarker

theorem length_bytesLE (k n : Nat) : (bytesLE k n).length = k := by
  induction k generalizing n with
  | zero => rfl
  | succ k ih => simp [bytesLE, ih]

theorem bytesLEValue_bytesLE (k n : Nat) :
    bytesLEValue (bytesLE k n) = n % 256 ^ k := by
  induction k generalizing n with
  | zero => simp [bytesLE, bytesLEValue, Nat.mod_one]
  | succ k ih =>
    have h : bytesLEValue (bytesLE (k + 1) n)
        = n % 256 + 256 * bytesLEValue (bytesLE k (n / 256)) := rfl
    rw [h, ih (n / 256), pow_succ' 256 k, Nat.mod_mul]

theorem encodeDescRecord_inRange (i : Int) (h0 : 0 ≤ i) (h1 : i < 128) :
    encodeDescRecord i = some ((List.replicate 128 0).set i.toNat 255) := by
  simp only [encodeDescRecord, pySet, List.length_replicate]
  rw [if_pos h0, if_pos (by omega : i.toNat < 128)]

theorem encodeDescRecord_high (i : Int) (h : 128 ≤ i) :
    encodeDescRecord i = none := by
  simp only [encodeDescRecord, pySet, List.length_replicate]
  rw [if_pos (by omega : (0 : Int) ≤ i), if_neg (by omega : ¬ i.toNat < 128)]

theorem encodeDescRecord_low (i : Int) (h : i < -128) :
    encodeDescRecord i = none := by
  simp only [encodeDescRecord, pySet, List.length_replicate]
  rw [if_neg (by omega : ¬ (0 : Int) ≤ i),
    if_neg (by push_cast; omega : ¬ (0 : Int) ≤ ((128 : Nat) : Int) + i)]

theorem encodeDescRecord_negWrap (i : Int) (h0 : -128 ≤ i) (h1 : i < 0) :
    encodeDescRecord i
      = some ((List.replicate 128 0).set (128 + i).toNat 255) := by
  simp only [encodeDescRecord, pySet, List.length_replicate]
  rw [if_neg (by omega : ¬ (0 : Int) ≤ i),
    if_pos (by push_cast; omega : (0 : Int) ≤ ((128 : Nat) : Int) + i)]
  norm_num

theorem encodeDescRecord_isSome_of (i : Int) (h0 : -128 ≤ i) (h1 : i < 128) :
    (encodeDescRecord i).isSome := by
  rcases le_or_lt 0 i with h | h
  · rw [encodeDescRecord_inRange i h h1]; rfl
  · rw [encodeDescRecord_negWrap i h0 h]; rfl

theorem encodeDescRecord_isSome_range (i : Int)
    (h : (encodeDescRecord i).isSome) : -128 ≤ i ∧ i < 128 := by
  by_contra hc
  rcases (by omega : i < -128 ∨ 128 ≤ i) with h1 | h1
  · rw [encodeDescRecord_low i h1] at h; simp at h
  · rw [encodeDescRecord_high i h1] at h; simp at h

theorem writeMarkersLoop_ok_range (markers : List Marker)
    (h : (writeMarkersLoop markers).2.2 = true) :
    ∀ m ∈ markers, -128 ≤ m.id ∧ m.id < 128 := by
  induction markers with
  | nil => intro m hm; cases hm
  | cons a rest ih =>
    intro m hm
    rcases List.mem_cons.mp hm with rfl | hm
    · cases he : encodeDescRecord m.id with
      | none => rw [writeMarkersLoop] at h; rw [he] at h; simp at h
      | some r =>
        exact encodeDescRecord_isSome_range m.id (by rw [he]; rfl)
    · cases he : encodeDescRecord a.id with
      | none => rw [writeMarkersLoop] at h; rw [he] at h; simp at h
      | some r =>
        rw [writeMarkersLoop] at h; rw [he] at h
        exact ih h m hm

theorem writeMarkersLoop_ok_of_range (markers : List Marker)
    (h : ∀ m ∈ markers, -128 ≤ m.id ∧ m.id < 128) :
    (writeMarkersLoop markers).2.2 = true := by
  induction markers with
  | nil => rfl
  | cons a rest ih =>
    have ha := h a (by simp)
    have hs := encodeDescRecord_isSome_of a.id ha.1 ha.2
    cases he : encodeDescRecord a.id with
    | none => rw [he] at hs; simp at hs
    | some r =>
      rw [writeMarkersLoop, he]
      exact ih (fun m hm => h m (by simp [hm]))

theorem writeMarkersLoop_bad (markers : List Marker)
    (h : ∃ m ∈ markers, m.id < -128 ∨ 128 ≤ m.id) :
    (writeMarkersLoop markers).2.2 = false := by
  induction markers with
  | nil => simp at h
  | cons a rest ih =>
    cases he : encodeDescRecord a.id with
    | none => rw [writeMarkersLoop, he]
    | some r =>
      rw [writeMarkersLoop, he]
      rcases h with ⟨m, hm, hbad⟩
      rcases List.mem_cons.mp hm with rfl | hm
      · exfalso
        have := encodeDescRecord_isSome_range m.id (by rw [he]; rfl)
        omega
      · exact ih ⟨m, hm, hbad⟩

theorem writeMarkersLoop_inRange (markers : List Marker)
    (h : ∀ m ∈ markers, 0 ≤ m.id ∧ m.id < 128) :
    writeMarkersLoop markers
      = (markers.map featLine,
        (markers.map (fun m => (List.replicate 128 0).set m.id.toNat 255)).flatten,
        true) := by
  induction markers with
  | nil => rfl
  | cons a rest ih =>
    have ha := h a (by simp)
    rw [writeMarkersLoop, encodeDescRecord_inRange a.id ha.1 ha.2,
      ih (fun m hm => h m (by simp [hm]))]
    simp

theorem writeView_eq (markers : List Marker)
    (hlen : markers.length < 2 ^ 64) :
    writeView markers
      = ([.openFeat, .openDesc]
          ++ (if (writeMarkersLoop markers).2.2 then [.closeDesc, .closeFeat]
            else []),
        (writeMarkersLoop markers).1,
        bytesLE 8 markers.length ++ (writeMarkersLoop markers).2.1,
        (writeMarkersLoop markers).2.2) := by
  rw [writeView, packQ, if_pos hlen]

theorem writeView_overflow (markers : List Marker)
    (hlen : ¬ markers.length < 2 ^ 64) :
    writeView markers = ([.openFeat, .openDesc], [], [], false) := by
  rw [writeView, packQ, if_neg hlen]

theorem writeView_bad_events (markers : List Marker)
    (h : ∃ m ∈ markers, m.id < -128 ∨ 128 ≤ m.id) :
    (writeView markers).1 = [.openFeat, .openDesc] := by
  by_cases hlen : markers.length < 2 ^ 64
  · rw [writeView_eq markers hlen, writeMarkersLoop_bad markers h]
    rfl
  · rw [writeView_overflow markers hlen]

theorem oneHotRecord_get (n j : Nat) (hn : n < 128) (hj : j < 128) :
    ((List.replicate 128 (0 : Nat)).set n 255).get? j
      = some (if j = n then 255 else 0) := by
  by_cases h : j = n
  · subst h
    rw [List.get?_eq_getElem?,
      List.getElem?_set_self (by simp [List.length_replicate, hj]), if_pos rfl]
  · rw [List.get?_eq_getElem?, List.getElem?_set_ne (fun he => h he.symm),
      List.getElem?_replicate, if_pos hj, if_neg h]

theorem records_flatten_length (ms : List Marker) :
    ((ms.map (fun m => (List.replicate 128 (0 : Nat)).set m.id.toNat 255)).flatten).length
      = 128 * ms.length := by
  induction ms with
  | nil => rfl
  | cons a rest ih =>
    simp only [List.map_cons, List.flatten_cons, List.length_append,
      List.length_set, List.length_replicate, ih, List.length_cons]
    ring

set_option maxRecDepth 10000

/-- C1: the descriptor encoder raises on every id at or above 128 and a
completed view write only ever contains ids inside the index range of
the 128-byte record; for a nonnegative id a written record forces
`id < 128`. Amended part: a negative id in `[-128, -1]` does not raise;
Python index wrap-around writes its byte silently at offset `128 + id`. -/
theorem spec_C1_markerIdRange : ∀ i : Int,
    (128 ≤ i → encodeDescRecord i = none)
    ∧ (0 ≤ i → (encodeDescRecord i).isSome → i < 128)
    ∧ (-128 ≤ i → i < 0 →
        encodeDescRecord i
          = some ((List.replicate 128 0).set (128 + i).toNat 255))
    ∧ (∀ markers : List Marker, (writeView markers).2.2.2 = true →
        ∀ m ∈ markers, -128 ≤ m.id ∧ m.id < 128) := by
  intro i
  refine ⟨encodeDescRecord_high i, ?_, encodeDescRecord_negWrap i, ?_⟩
  · intro _ hs
    exact (encodeDescRecord_isSome_range i hs).2
  · intro markers hok
    by_cases hlen : markers.length < 2 ^ 64
    · rw [writeView_eq markers hlen] at hok
      exact writeMarkersLoop_ok_range markers hok
    · rw [writeView_overflow markers hlen] at hok
      cases hok

/-- C1 counterexample: the detection with id `-1` violates
`0 <= id < 128`, yet the view write completes without an error and its
one-hot byte lands at offset 127. -/
theorem spec_C1_cex :
    encodeDescRecord (-1) = some ((List.replicate 128 0).set 127 255)
    ∧ (writeView [⟨0, 0, 0, -1⟩]).2.2.2 = true
    ∧ ¬ (0 ≤ (-1 : Int)) := by
  decide

/-- C1 witness: id 128 raises. -/
theorem spec_C1_witness : encodeDescRecord 128 = none :=
  (spec_C1_markerIdRange 128).1 (by decide)

/-- C3: a view written with in-range detections completes, and its
descriptor file is the 8-byte little-endian count of the markers
followed by one 128-byte one-hot record per marker in detection order;
the total length is `8 + 128 * N` and each record holds byte 255 exactly
at the marker id and byte 0 at every other offset. -/
theorem spec_C3_descriptorLayout (markers : List Marker)
    (hlen : markers.length < 2 ^ 64)
    (h : ∀ m ∈ markers, 0 ≤ m.id ∧ m.id < 128) :
    (writeView markers).2.2.2 = true
    ∧ (writeView markers).2.2.1
      = bytesLE 8 markers.length
        ++ (markers.map
            (fun m => (List.replicate 128 0).set m.id.toNat 255)).flatten
    ∧ bytesLEValue (bytesLE 8 markers.length) = markers.length
    ∧ (writeView markers).2.2.1.length = 8 + 128 * markers.length
    ∧ (∀ m ∈ markers, ∀ j : Nat, j < 128 →
        ((List.replicate 128 0).set m.id.toNat 255).get? j
          = some (if (j : Int) = m.id then 255 else 0)) := by
  have hloop := writeMarkersLoop_inRange markers h
  have hview := writeView_eq markers hlen
  have hbytes : (writeView markers).2.2.1
      = bytesLE 8 markers.length
        ++ (markers.map
            (fun m => (List.replicate 128 0).set m.id.toNat 255)).flatten := by
    rw [hview]
    simp only [hloop]
  refine ⟨?_, hbytes, ?_, ?_, ?_⟩
  · rw [hview]
    simp only [hloop]
  · rw [bytesLEValue_bytesLE]
    exact Nat.mod_eq_of_lt (by norm_num at hlen ⊢; exact hlen)
  · rw [hbytes]
    simp only [List.length_append, length_bytesLE, records_flatten_length]
  · intro m hm j hj
    have hmr := h m hm
    rw [oneHotRecord_get m.id.toNat j (by omega) hj]
    have he : ((j : Int) = m.id) ↔ (j = m.id.toNat) := by omega
    simp only [he]

/-- C3 witness: the single-marker view with id 5 produces exactly the
8-byte count 1 followed by the one-hot record, 136 bytes in total. -/
theorem spec_C3_witness :
    (writeView [⟨0, 0, 0, 5⟩]).2.2.1
      = bytesLE 8 1
        ++ (([⟨0, 0, 0, 5⟩] : List Marker).map
            (fun m => (List.replicate 128 0).set m.id.toNat 255)).flatten
    ∧ (writeView [⟨0, 0, 0, 5⟩]).2.2.1.length = 8 + 128 * 1 :=
  ⟨(spec_C3_descriptorLayout [⟨0, 0, 0, 5⟩] (by decide) (by decide)).2.1,
    (spec_C3_descriptorLayout [⟨0, 0, 0, 5⟩] (by decide) (by decide)).2.2.2.1⟩

/-- C8: a per-view write that completes closes both handles, in order
descriptor first then feature file. Amended part: when a marker id
outside the bytearray index range raises mid-write, the two `close()`
calls are skipped, so the handles are not released on that exit path. -/
theorem spec_C8_fileHandles : ∀ markers : List Marker,
    (markers.length < 2 ^ 64 → (∀ m ∈ markers, -128 ≤ m.id ∧ m.id < 128) →
      (writeView markers).1
        = [.openFeat, .openDesc, .closeDesc, .closeFeat])
    ∧ ((∃ m ∈ markers, m.id < -128 ∨ 128 ≤ m.id) →
      (writeView markers).1 = [.openFeat, .openDesc]) := by
  intro markers
  refine ⟨?_, writeView_bad_events markers⟩
  intro hlen h
  rw [writeView_eq markers hlen, writeMarkersLoop_ok_of_range markers h]
  rfl

/-- C8 counterexample: a marker with id 128 raises mid-write and neither
close event appears in the handle trace. -/
theorem spec_C8_cex :
    (writeView [⟨0, 0, 0, 128⟩]).1 = [.openFeat, .openDesc]
    ∧ FileEvent.closeDesc ∉ (writeView [⟨0, 0, 0, 128⟩]).1
    ∧ FileEvent.closeFeat ∉ (writeView [⟨0, 0, 0, 128⟩]).1 := by
  decide

/-- C8 witness: an in-range single-marker view closes both handles. -/
theorem spec_C8_witness :
    (writeView [⟨0, 0, 0, 5⟩]).1
      = [.openFeat, .openDesc, .closeDesc, .closeFeat] :=
  (spec_C8_fileHandles [⟨0, 0, 0, 5⟩]).1 (by decide) (by decide)

/-- C2: with a non-zero subprocess exit code the auto marker id
resolution does not raise: the guard compares the return code against a
copy of itself, so it can never fire, and the function always continues
on to parse the output JSON. The generic conjunct shows no return code
whatsoever makes it fail. -/
theorem spec_C2_exitCodeCheck :
    get_markerids_guard 1 = false
    ∧ get_markerids_auto 1 (some [5, 2]) = some [2, 5]
    ∧ ∀ (rc : Int) (sfm : Option (List ℚ)),
        (get_markerids_auto rc sfm).isSome := by
  refine ⟨rfl, by decide, ?_⟩
  intro rc sfm
  simp [get_markerids_auto, get_markerids_guard]

theorem string_foldl_append {α : Type} (f : α → String) :
    ∀ (l : List α) (s : String),
      l.foldl (fun acc x => acc ++ f x) s = s ++ strConcat (l.map f) := by
  intro l
  induction l with
  | nil => intro s; simp [strConcat]
  | cons a rest ih =>
    intro s
    rw [List.foldl_cons, ih (s ++ f a)]
    simp [strConcat, String.append_assoc]

theorem build_markers_param_entries (markers : List (Int × ℚ × ℚ × ℚ))
    (p : Nat) :
    build_markers_param markers p
      = " --markers" ++ strConcat (markers.map (markersParamEntry p)) := by
  rw [build_markers_param]
  rw [show (fun (cmd : String) (item : Int × ℚ × ℚ × ℚ) =>
      cmd ++ " " ++ intStr item.1 ++ ":" ++ formatFixed item.2.1 p
        ++ "," ++ formatFixed item.2.2.1 p
        ++ "," ++ formatFixed item.2.2.2 p)
      = fun (cmd : String) item => cmd ++ markersParamEntry p item from by
    funext cmd item
    simp [markersParamEntry, String.append_assoc]]
  exact string_foldl_append (markersParamEntry p) markers " --markers"

theorem fracDigits_length : ∀ (p n : Nat), (fracDigits n p).length = p := by
  intro p
  induction p with
  | zero => intro n; rfl
  | succ p ih =>
    intro n
    show (fracDigits (n / 10) p ++ String.singleton (Nat.digitChar (n % 10))).length = p + 1
    rw [String.length_append, ih (n / 10)]
    rfl

/-- C5: the markers parameter is the string `" --markers"` followed, in
mapping order, by one entry per marker of the form `" id:e,n,elev"`,
each value formatted fixed-point with exactly `p` fractional digits;
on the mapping `1 : (9, 18, 2)` with precision 2 it is exactly
`" --markers 1:9.00,18.00,2.00"`. -/
theorem spec_C5_markersParam :
    build_markers_param [(1, (9, 18, 2))] 2 = " --markers 1:9.00,18.00,2.00"
    ∧ (∀ (markers : List (Int × ℚ × ℚ × ℚ)) (p : Nat),
        build_markers_param markers p
          = " --markers" ++ strConcat (markers.map (markersParamEntry p)))
    ∧ (∀ (q : ℚ) (p : Nat), 0 < p →
        formatFixed q p
          = intPartStr q p ++ "." ++ fracDigits (scaledMagnitude q p) p
        ∧ (fracDigits (scaledMagnitude q p) p).length = p) := by
  refine ⟨by decide, build_markers_param_entries, ?_⟩
  intro q p hp
  refine ⟨?_, fracDigits_length p _⟩
  rw [formatFixed, if_neg (by omega : ¬ p = 0), String.append_assoc]

/-- C5 witness: the value 18 at precision 2 splits into integer part,
point, and exactly two fractional digits. -/
theorem spec_C5_witness :
    formatFixed 18 2
      = intPartStr 18 2 ++ "." ++ fracDigits (scaledMagnitude 18 2) 2
    ∧ (fracDigits (scaledMagnitude 18 2) 2).length = 2 :=
  spec_C5_markersParam.2.2 18 2 (by decide)

theorem build_markers_go_none (coords : List (PyNum × (ℚ × ℚ × ℚ))) :
    ∀ (ids : List Int) acc, (∃ i ∈ ids, numDictGet coords (.int i) = none) →
      build_markers_go coords ids acc = none := by
  intro ids
  induction ids with
  | nil => intro acc h; simp at h
  | cons a rest ih =>
    intro acc h
    cases hl : numDictGet coords (.int a) with
    | none => rw [build_markers_go, hl]
    | some v =>
      rw [build_markers_go, hl]
      rcases h with ⟨i, hi, hnone⟩
      rcases List.mem_cons.mp hi with rfl | hi
      · rw [hl] at hnone; cases hnone
      · exact ih _ ⟨i, hi, hnone⟩

theorem build_markers_go_found (coords : List (PyNum × (ℚ × ℚ × ℚ))) :
    ∀ (ids : List Int) acc d, build_markers_go coords ids acc = some d →
      ∀ i ∈ ids, (numDictGet coords (.int i)).isSome := by
  intro ids
  induction ids with
  | nil => intro acc d _ i hi; cases hi
  | cons a rest ih =>
    intro acc d hd i hi
    cases hl : numDictGet coords (.int a) with
    | none => rw [build_markers_go, hl] at hd; cases hd
    | some v =>
      rw [build_markers_go, hl] at hd
      rcases List.mem_cons.mp hi with rfl | hi
      · rw [hl]; rfl
      · exact ih _ d hd i hi

/-- C6: building the resolved marker set is a direct mapping lookup: if
any resolved id has no entry in the coordinate table the whole join
raises, and conversely a successful join proves every id was present,
so no id is ever silently defaulted or dropped. -/
theorem spec_C6_missingCoordinate :
    (∀ (ids : List Int) (coords : List (PyNum × (ℚ × ℚ × ℚ))),
      (∃ i ∈ ids, numDictGet coords (.int i) = none) →
        build_markers ids coords = none)
    ∧ (∀ (ids : List Int) (coords : List (PyNum × (ℚ × ℚ × ℚ))) d,
      build_markers ids coords = some d →
        ∀ i ∈ ids, (numDictGet coords (.int i)).isSome) := by
  constructor
  · intro ids coords h
    exact build_markers_go_none coords ids [] h
  · intro ids coords d hd
    exact build_markers_go_found coords ids [] d hd

/-- C6 witness: id 7 against the empty coordinate table raises. -/
theorem spec_C6_witness : build_markers [7] [] = none :=
  spec_C6_missingCoordinate.1 [7] [] ⟨7, by simp, rfl⟩

theorem load_coords_go_filter (ox oy oz : ℚ) :
    ∀ (rows : List (List ℚ)) acc,
      load_coords_go ox oy oz (rows.filter (fun r => 4 ≤ r.length)) acc
        = load_coords_go ox oy oz rows acc := by
  intro rows
  induction rows with
  | nil => intro acc; rfl
  | cons item rest ih =>
    intro acc
    rcases item with _ | ⟨i0, _ | ⟨i1, _ | ⟨i2, _ | ⟨i3, t⟩⟩⟩⟩
    · rw [List.filter_cons_of_neg (by simp)]
      exact ih acc
    · rw [List.filter_cons_of_neg (by simp)]
      exact ih acc
    · rw [List.filter_cons_of_neg (by simp)]
      exact ih acc
    · rw [List.filter_cons_of_neg (by simp)]
      exact ih acc
    · rw [List.filter_cons_of_pos (by simp)]
      exact ih _

theorem option_bind_const_none {α β : Type} (o : Option α) :
    (o >>= fun _ => (none : Option β)) = none := by
  cases o <;> rfl

theorem load_images_row_short (pf : String → Option ℚ)
    (pint : String → Option Int) (row : List String) (h : row.length < 5) :
    load_images_row pf pint row = none := by
  have h4 : row[4]? = none := by
    rw [List.getElem?_eq_none]
    omega
  simp [load_images_row, h4, option_bind_const_none]

theorem mapM_eq_none_of_mem {α β : Type} (f : α → Option β) :
    ∀ (rows : List α), (∃ r ∈ rows, f r = none) → rows.mapM f = none := by
  intro rows
  induction rows with
  | nil => intro h; simp at h
  | cons a rest ih =>
    intro h
    rw [List.mapM_cons]
    cases ha : f a with
    | none => rfl
    | some b =>
      rcases h with ⟨r, hr, hnone⟩
      rcases List.mem_cons.mp hr with rfl | hr
      · rw [ha] at hnone; cases hnone
      · rw [ih ⟨r, hr, hnone⟩]
        rfl

/-- C4: only the coordinate CSV reader skips short rows: rows with fewer
than 4 fields are dropped and the load continues as if they were
absent. Amended part: in the marker detection CSV reader a row with
fewer than 5 columns is not skipped; it raises an IndexError inside the
parsing comprehension and the whole load fails. -/
theorem spec_C4_shortRows :
    (∀ (rows : List (List ℚ)) (ox oy oz : ℚ),
      load_coords (rows.filter (fun r => 4 ≤ r.length)) ox oy oz
        = load_coords rows ox oy oz)
    ∧ (∀ (pf : String → Option ℚ) (pint : String → Option Int)
        (rows : List (List String)),
      (∃ row ∈ rows, row.length < 5) → load_images pf pint rows = none) := by
  constructor
  · intro rows ox oy oz
    exact load_coords_go_filter ox oy oz rows []
  · intro pf pint rows ⟨row, hrow, hshort⟩
    exact mapM_eq_none_of_mem _ rows
      ⟨row, hrow, load_images_row_short pf pint row hshort⟩

/-- C4 counterexample: a marker CSV row with only 4 columns makes the
whole marker load fail instead of being skipped. -/
theorem spec_C4_cex :
    load_images pyFloatOfString pyIntOfString [["1.0", "2.0", "img", "3"]]
      = none
    ∧ (["1.0", "2.0", "img", "3"] : List String).length < 5 := by
  decide

/-- C4 witness: dropping a short coordinate row does not change the
coordinate table, while a short row among well-formed marker rows still
fails the marker load. -/
theorem spec_C4_witness :
    load_coords ([[1, 2, 3]].filter (fun r => 4 ≤ r.length)) 0 0 0
      = load_coords [[1, 2, 3]] 0 0 0
    ∧ load_images pyFloatOfString pyIntOfString
        [["9", "8", "im", "7", "6"], ["5"]] = none :=
  ⟨spec_C4_shortRows.1 [[1, 2, 3]] 0 0 0,
    spec_C4_shortRows.2 pyFloatOfString pyIntOfString
      [["9", "8", "im", "7", "6"], ["5"]] ⟨["5"], by simp, by decide⟩⟩

theorem write_describers_views_cons (images : List (String × List Marker))
    (lookup : List (String × String)) (img0 : String) (ms : List Marker)
    (h : pyFalsy (strDictGet lookup img0) = true) :
    write_describers_views ((img0, ms) :: images) lookup
      = write_describers_views images lookup := by
  rw [write_describers_views, write_describers_views, List.filterMap_cons]
  simp only [h, if_true]

theorem strDictGet_cons (a : String × String) (d : List (String × String))
    (k : String) :
    strDictGet (a :: d) k = if a.1 == k then some a.2 else strDictGet d k := by
  rw [strDictGet, List.find?_cons]
  cases h : a.1 == k
  · simp only [h, Bool.false_eq_true, if_false]
    rfl
  · simp [h]

theorem strDictGet_filter (img0 : String) :
    ∀ (lookup : List (String × String)) (k : String),
      strDictGet (lookup.filter (fun kv => kv.1 != img0)) k
        = if k = img0 then none else strDictGet lookup k := by
  intro lookup
  induction lookup with
  | nil =>
    intro k
    by_cases h : k = img0 <;> simp [strDictGet, h]
  | cons a rest ih =>
    intro k
    by_cases ha : a.1 = img0
    · rw [List.filter_cons_of_neg (by simp [ha]), ih k]
      by_cases hk : k = img0
      · simp [hk]
      · rw [if_neg hk, if_neg hk, strDictGet_cons,
          if_neg (by simp [ha]; exact fun he => hk he.symm)]
    · rw [List.filter_cons_of_pos (by simp [ha]), strDictGet_cons, ih k,
        strDictGet_cons]
      by_cases hk : k = img0
      · rw [if_pos hk, if_pos hk,
          if_neg (by simp; intro he; exact ha (by rw [he, hk]))]
      · rw [if_neg hk, if_neg hk]

/-- C10: an image whose manifest entry carries an empty view id string is
treated by the descriptor encoder exactly like an image absent from the
manifest: prepending it changes no output, and the outputs with the
entry present equal the outputs with the entry removed from the
manifest; every other image is processed unchanged. -/
theorem spec_C10_emptyViewId :
    ∀ (images : List (String × List Marker))
      (lookup : List (String × String)) (img0 : String),
      strDictGet lookup img0 = some "" →
    (∀ ms, write_describers_outputs ((img0, ms) :: images) lookup
        = write_describers_outputs images lookup)
    ∧ write_describers_outputs images lookup
        = write_describers_outputs images
            (lookup.filter (fun kv => kv.1 != img0)) := by
  intro images lookup img0 h
  constructor
  · intro ms
    rw [write_describers_outputs, write_describers_outputs,
      write_describers_views_cons images lookup img0 ms (by rw [h]; rfl)]
  · rw [write_describers_outputs, write_describers_outputs]
    congr 1
    rw [write_describers_views, write_describers_views]
    apply List.filterMap_congr
    intro im _
    by_cases him : im.1 = img0
    · rw [him, h, strDictGet_filter img0 lookup img0, if_pos rfl]
      rfl
    · rw [strDictGet_filter img0 lookup im.1, if_neg him]

/-- C10 witness: with a manifest mapping image a to an empty view id,
dropping image a from the inputs leaves the outputs unchanged. -/
theorem spec_C10_witness :
    write_describers_outputs [("a", []), ("b", [])]
        [("a", ""), ("b", "7")]
      = write_describers_outputs [("b", [])] [("a", ""), ("b", "7")] :=
  (spec_C10_emptyViewId [("b", [])] [("a", ""), ("b", "7")] "a" rfl).1 []

theorem numDictSet_keys {V : Type} (d : List (PyNum × V)) (k : PyNum)
    (v : V) :
    (numDictSet d k v).map (fun kv => kv.1)
      = if d.any (fun kv => pyNumEq kv.1 k) then d.map (fun kv => kv.1)
        else d.map (fun kv => kv.1) ++ [k] := by
  rw [numDictSet]
  by_cases h : d.any (fun kv => pyNumEq kv.1 k)
  · rw [if_pos h, if_pos h, List.map_map]
    apply List.map_congr_left
    intro kv _
    by_cases hkv : pyNumEq kv.1 k <;> simp [Function.comp, hkv]
  · rw [if_neg h, if_neg h, List.map_append]
    rfl

theorem numDictSet_fst_mem {V : Type} (d : List (PyNum × V)) (k : PyNum)
    (v : V) :
    ∀ kv ∈ numDictSet d k v, kv.1 ∈ d.map (fun x => x.1) ∨ kv.1 = k := by
  intro kv hkv
  have hm : kv.1 ∈ (numDictSet d k v).map (fun x => x.1) :=
    List.mem_map_of_mem _ hkv
  rw [numDictSet_keys] at hm
  by_cases h : d.any (fun kv => pyNumEq kv.1 k)
  · rw [if_pos h] at hm
    exact Or.inl hm
  · rw [if_neg h] at hm
    rcases List.mem_append.mp hm with hm | hm
    · exact Or.inl hm
    · exact Or.inr (List.mem_singleton.mp hm)

theorem load_coords_go_keys_float (ox oy oz : ℚ) :
    ∀ (rows : List (List ℚ)) (acc : List (PyNum × (ℚ × ℚ × ℚ))),
      (∀ kv ∈ acc, ∃ q : ℚ, kv.1 = PyNum.float q) →
      ∀ kv ∈ load_coords_go ox oy oz rows acc, ∃ q : ℚ, kv.1 = PyNum.float q := by
  intro rows
  induction rows with
  | nil => intro acc hacc; exact hacc
  | cons item rest ih =>
    intro acc hacc
    rcases item with _ | ⟨i0, _ | ⟨i1, _ | ⟨i2, _ | ⟨i3, t⟩⟩⟩⟩
    · exact ih acc hacc
    · exact ih acc hacc
    · exact ih acc hacc
    · exact ih acc hacc
    · refine ih _ ?_
      intro kv hkv
      rcases numDictSet_fst_mem acc (.float i0) (i1 + ox, i2 + oy, i3 + oz)
          kv hkv with hm | hm
      · rcases List.mem_map.mp hm with ⟨kv0, hkv0, he⟩
        rcases hacc kv0 hkv0 with ⟨q, hq⟩
        exact ⟨q, by rw [← he, hq]⟩
      · exact ⟨i0, hm⟩

theorem pyNumEq_trans (a b c : PyNum) (h1 : pyNumEq a b = true)
    (h2 : pyNumEq b c = true) : pyNumEq a c = true := by
  simp only [pyNumEq, decide_eq_true_eq] at *
  exact h1.trans h2

theorem numDictGet_isSome_iff {V : Type} (d : List (PyNum × V)) (k : PyNum) :
    (numDictGet d k).isSome ↔ ∃ kv ∈ d, pyNumEq kv.1 k = true := by
  simp [numDictGet, List.find?_isSome]

theorem numDictSet_preserves_key {V : Type} (d : List (PyNum × V))
    (k' : PyNum) (v : V) (k : PyNum)
    (h : ∃ kv ∈ d, pyNumEq kv.1 k = true) :
    ∃ kv ∈ numDictSet d k' v, pyNumEq kv.1 k = true := by
  rcases h with ⟨kv, hkv, he⟩
  rw [numDictSet]
  by_cases hany : d.any (fun kv => pyNumEq kv.1 k')
  · rw [if_pos hany]
    by_cases hk : pyNumEq kv.1 k'
    · exact ⟨(kv.1, v), List.mem_map.mpr ⟨kv, hkv, by simp [hk]⟩, he⟩
    · exact ⟨kv, List.mem_map.mpr ⟨kv, hkv, by simp [hk]⟩, he⟩
  · rw [if_neg hany]
    exact ⟨kv, List.mem_append_left _ hkv, he⟩

theorem numDictSet_creates_key {V : Type} (d : List (PyNum × V))
    (k' : PyNum) (v : V) (k : PyNum) (h : pyNumEq k' k = true) :
    ∃ kv ∈ numDictSet d k' v, pyNumEq kv.1 k = true := by
  rw [numDictSet]
  by_cases hany : d.any (fun kv => pyNumEq kv.1 k')
  · rcases List.any_eq_true.mp hany with ⟨kv, hkv, he⟩
    rw [if_pos hany]
    refine ⟨(kv.1, v), List.mem_map.mpr ⟨kv, hkv, by simp [he]⟩, ?_⟩
    exact pyNumEq_trans kv.1 k' k he h
  · rw [if_neg hany]
    exact ⟨(k', v), List.mem_append_right _ (by simp), h⟩

theorem load_coords_go_key_found (ox oy oz : ℚ) (k : PyNum) :
    ∀ (rows : List (List ℚ)) (acc : List (PyNum × (ℚ × ℚ × ℚ))),
      ((∃ kv ∈ acc, pyNumEq kv.1 k = true)
        ∨ ∃ row ∈ rows, ∃ i0 i1 i2 i3 t, row = i0 :: i1 :: i2 :: i3 :: t
            ∧ pyNumEq (.float i0) k = true) →
      ∃ kv ∈ load_coords_go ox oy oz rows acc, pyNumEq kv.1 k = true := by
  intro rows
  induction rows with
  | nil =>
    intro acc h
    rcases h with h | h
    · exact h
    · simp at h
  | cons item rest ih =>
    intro acc h
    rcases item with _ | ⟨i0, _ | ⟨i1, _ | ⟨i2, _ | ⟨i3, t⟩⟩⟩⟩
    case nil =>
      refine ih acc ?_
      rcases h with h | ⟨row, hrow, j0, j1, j2, j3, u, hsh, hkey⟩
      · exact Or.inl h
      · rcases List.mem_cons.mp hrow with rfl | hrow
        · cases hsh
        · exact Or.inr ⟨row, hrow, j0, j1, j2, j3, u, hsh, hkey⟩
    case cons.nil =>
      refine ih acc ?_
      rcases h with h | ⟨row, hrow, j0, j1, j2, j3, u, hsh, hkey⟩
      · exact Or.inl h
      · rcases List.mem_cons.mp hrow with rfl | hrow
        · cases hsh
        · exact Or.inr ⟨row, hrow, j0, j1, j2, j3, u, hsh, hkey⟩
    case cons.cons.nil =>
      refine ih acc ?_
      rcases h with h | ⟨row, hrow, j0, j1, j2, j3, u, hsh, hkey⟩
      · exact Or.inl h
      · rcases List.mem_cons.mp hrow with rfl | hrow
        · cases hsh
        · exact Or.inr ⟨row, hrow, j0, j1, j2, j3, u, hsh, hkey⟩
    case cons.cons.cons.nil =>
      refine ih acc ?_
      rcases h with h | ⟨row, hrow, j0, j1, j2, j3, u, hsh, hkey⟩
      · exact Or.inl h
      · rcases List.mem_cons.mp hrow with rfl | hrow
        · cases hsh
        · exact Or.inr ⟨row, hrow, j0, j1, j2, j3, u, hsh, hkey⟩
    case cons.cons.cons.cons =>
      refine ih _ ?_
      rcases h with h | ⟨row, hrow, j0, j1, j2, j3, u, hsh, hkey⟩
      · exact Or.inl (numDictSet_preserves_key acc (.float i0) _ k h)
      · rcases List.mem_cons.mp hrow with rfl | hrow
        · have h0 : j0 = i0 := by
            injection hsh with he _
            exact he.symm
          rw [h0] at hkey
          exact Or.inl (numDictSet_creates_key acc (.float i0) _ k hkey)
        · exact Or.inr ⟨row, hrow, j0, j1, j2, j3, u, hsh, hkey⟩

/-- C9: the coordinate table built by `load_coords` stores every key as a
float, an integer id looks up exactly like the float of the same value,
and any row with at least 4 fields whose first field equals the integer
id numerically makes the later integer lookup succeed, so the join of
integer resolved ids against the float-keyed table behaves as if the
keys were integers. -/
theorem spec_C9_floatKeys :
    ∀ (rows : List (List ℚ)) (ox oy oz : ℚ) (i : Int),
    (∀ kv ∈ load_coords rows ox oy oz, ∃ q : ℚ, kv.1 = PyNum.float q)
    ∧ numDictGet (load_coords rows ox oy oz) (PyNum.int i)
        = numDictGet (load_coords rows ox oy oz) (PyNum.float (i : ℚ))
    ∧ ((∃ row ∈ rows, 4 ≤ row.length ∧ row.head? = some ((i : ℚ))) →
        (numDictGet (load_coords rows ox oy oz) (PyNum.int i)).isSome) := by
  intro rows ox oy oz i
  refine ⟨load_coords_go_keys_float ox oy oz rows [] (by simp), rfl, ?_⟩
  intro ⟨row, hrow, hlen, hhead⟩
  rw [load_coords, numDictGet_isSome_iff]
  apply load_coords_go_key_found ox oy oz (PyNum.int i) rows []
  refine Or.inr ⟨row, hrow, ?_⟩
  rcases row with _ | ⟨a, _ | ⟨b, _ | ⟨c, _ | ⟨d, t⟩⟩⟩⟩ <;> simp at hlen
  obtain rfl : a = (i : ℚ) := by simpa using hhead
  exact ⟨(i : ℚ), b, c, d, t, rfl, by simp [pyNumEq, PyNum.val]⟩

/-- C9 witness: row `(1, 10, 20, 5)` is stored under the float key 1 and
the integer lookup of id 1 succeeds on the loaded table. -/
theorem spec_C9_witness :
    (numDictGet (load_coords [[1, 10, 20, 5]] 0 0 0) (PyNum.int 1)).isSome :=
  (spec_C9_floatKeys [[1, 10, 20, 5]] 0 0 0 1).2.2
    ⟨[1, 10, 20, 5], by simp, by simp, by simp⟩

theorem insertSorted_perm (x : Int) :
    ∀ l : List Int, (insertSorted x l).Perm (x :: l) := by
  intro l
  induction l with
  | nil => exact List.Perm.refl _
  | cons y ys ih =>
    rw [insertSorted]
    by_cases h : x ≤ y
    · rw [if_pos h]
    · rw [if_neg h]
      exact (ih.cons y).trans (List.Perm.swap x y ys)

theorem insertSorted_sorted (x : Int) :
    ∀ l : List Int, l.Sorted (fun a b => a ≤ b) →
      (insertSorted x l).Sorted (fun a b => a ≤ b) := by
  intro l
  induction l with
  | nil => intro _; simp [insertSorted]
  | cons y ys ih =>
    intro h
    rw [List.sorted_cons] at h
    rw [insertSorted]
    by_cases hxy : x ≤ y
    · rw [if_pos hxy, List.sorted_cons]
      constructor
      · intro b hb
        rcases List.mem_cons.mp hb with rfl | hb
        · exact hxy
        · exact le_trans hxy (h.1 b hb)
      · rw [List.sorted_cons]
        exact h
    · rw [if_neg hxy, List.sorted_cons]
      constructor
      · intro b hb
        rcases List.mem_cons.mp ((insertSorted_perm x ys).mem_iff.mp hb)
            with rfl | hb2
        · omega
        · exact h.1 b hb2
      · exact ih h.2

theorem pySorted_sorted_perm : ∀ l : List Int,
    (pySorted l).Sorted (fun a b => a ≤ b) ∧ (pySorted l).Perm l := by
  intro l
  induction l with
  | nil => exact ⟨by simp [pySorted], List.Perm.refl _⟩
  | cons a rest ih =>
    have hps : pySorted (a :: rest) = insertSorted a (pySorted rest) := rfl
    constructor
    · rw [hps]
      exact insertSorted_sorted a _ ih.1
    · rw [hps]
      exact (insertSorted_perm a _).trans (ih.2.cons a)

theorem acc_any_int (acc : List (PyNum × (ℚ × ℚ × ℚ))) (seen : List Int)
    (a : Int) (hk : acc.map (fun kv => kv.1) = seen.map PyNum.int) :
    ((acc.any fun kv => pyNumEq kv.1 (.int a)) = true) ↔ a ∈ seen := by
  rw [List.any_eq_true]
  constructor
  · rintro ⟨kv, hkv, he⟩
    have hm : kv.1 ∈ seen.map PyNum.int := by
      rw [← hk]
      exact List.mem_map_of_mem _ hkv
    rcases List.mem_map.mp hm with ⟨s, hs, hse⟩
    rw [← hse] at he
    have hq : (s : ℚ) = (a : ℚ) := by
      simpa [pyNumEq, PyNum.val] using he
    have : s = a := by exact_mod_cast hq
    exact this ▸ hs
  · intro ha
    have hm : PyNum.int a ∈ acc.map (fun kv => kv.1) := by
      rw [hk]
      exact List.mem_map_of_mem _ ha
    rcases List.mem_map.mp hm with ⟨kv, hkv, he⟩
    exact ⟨kv, hkv, by rw [he]; simp [pyNumEq]⟩

theorem build_markers_go_keys (coords : List (PyNum × (ℚ × ℚ × ℚ))) :
    ∀ (ids seen : List Int) (acc : List (PyNum × (ℚ × ℚ × ℚ))) d,
      acc.map (fun kv => kv.1) = seen.map PyNum.int →
      build_markers_go coords ids acc = some d →
      d.map (fun kv => kv.1)
        = (seen ++ dedupFirstFrom seen ids).map PyNum.int := by
  intro ids
  induction ids with
  | nil =>
    intro seen acc d hk hd
    rw [build_markers_go] at hd
    injection hd with hd
    rw [← hd, dedupFirstFrom, List.append_nil]
    exact hk
  | cons a rest ih =>
    intro seen acc d hk hd
    rw [build_markers_go] at hd
    cases hl : numDictGet coords (.int a) with
    | none => rw [hl] at hd; cases hd
    | some v =>
      rw [hl] at hd
      by_cases hmem : a ∈ seen
      · have hany : (acc.any fun kv => pyNumEq kv.1 (.int a)) = true :=
          (acc_any_int acc seen a hk).mpr hmem
        have hk2 : (numDictSet acc (.int a) v).map (fun kv => kv.1)
            = seen.map PyNum.int := by
          rw [numDictSet_keys, if_pos hany, hk]
        rw [dedupFirstFrom, if_pos hmem]
        exact ih seen _ d hk2 hd
      · have hany : ¬ (acc.any fun kv => pyNumEq kv.1 (.int a)) = true :=
          fun hc => hmem ((acc_any_int acc seen a hk).mp hc)
        have hk2 : (numDictSet acc (.int a) v).map (fun kv => kv.1)
            = (seen ++ [a]).map PyNum.int := by
          rw [numDictSet_keys, if_neg hany, hk, List.map_append]
          rfl
        rw [dedupFirstFrom, if_neg hmem,
          ih (seen ++ [a]) _ d hk2 hd, List.append_assoc]
        rfl

/-- C7: in auto mode the resolved ids are the integer casts of the first
color channels sorted ascending (a permutation of the casts, in
ascending order), the join into the coordinate mapping keeps exactly the
first occurrence of every id, and the structure channels `[5, 2, 5, 9]`
joined against a table holding 2, 5 and 9 resolve to exactly the keys
`[2, 5, 9]`. -/
theorem spec_C7_autoIds :
    (∀ points : List ℚ, get_markerids_auto 0 (some points)
        = some (pySorted (points.map pyTrunc)))
    ∧ (∀ l : List Int,
        (pySorted l).Sorted (fun a b => a ≤ b) ∧ (pySorted l).Perm l)
    ∧ (∀ (ids : List Int) (coords : List (PyNum × (ℚ × ℚ × ℚ))) d,
        build_markers ids coords = some d →
          d.map (fun kv => kv.1) = (dedupFirst ids).map PyNum.int)
    ∧ ((build_markers (pySorted ([5, 2, 5, 9].map pyTrunc))
          [(.float 2, (0, 0, 0)), (.float 5, (0, 0, 0)),
            (.float 9, (0, 0, 0))]).map (fun d => d.map (fun kv => kv.1))
        = some [PyNum.int 2, PyNum.int 5, PyNum.int 9]) := by
  refine ⟨?_, pySorted_sorted_perm, ?_, by decide⟩
  · intro points
    cases points with
    | nil => rfl
    | cons p ps => simp [get_markerids_auto, get_markerids_guard]
  · intro ids coords d hd
    exact build_markers_go_keys coords ids [] [] d rfl hd

/-- C7 witness: the id list `[5, 5, 2]` joined against a table holding 5
and 2 produces the keys `[5, 2]`: duplicates are dropped at the join. -/
theorem spec_C7_witness :
    ([((PyNum.int 5), ((1 : ℚ), (2 : ℚ), (3 : ℚ))),
      ((PyNum.int 2), ((4 : ℚ), (5 : ℚ), (6 : ℚ)))].map (fun kv => kv.1))
      = (dedupFirst [5, 5, 2]).map PyNum.int :=
  spec_C7_autoIds.2.2.1 [5, 5, 2]
    [(.float 5, (1, 2, 3)), (.float 2, (4, 5, 6))]
    [((PyNum.int 5), ((1 : ℚ), (2 : ℚ), (3 : ℚ))),
      ((PyNum.int 2), ((4 : ℚ), (5 : ℚ), (6 : ℚ)))] (by decide)

end GCPMarker
